import Mathlib

/-!
# The JOS scheduler of `kern/sched.c`

A shallow embedding of `sched_yield` (both compile-time policies,
`SCHED_ROUND_ROBIN` and `SCHED_PRIORITIES`) and of `sched_halt`, followed by
theorems about which environment is dispatched and what the bookkeeping
statements do.

Conventions of the embedding.

* The table `envs` is a list of records; `NENV` is its length.
* `curenv` is kept as the slot index `ENVX(curenv->env_id)` of the current
  environment, so `curenv->env_status` is `envs[ENVX(curenv->env_id)].env_status`.
* `MIN_PRIORITY` and `MAX_PRIORITY` come from a header that is not part of
  `kern/sched.c`; they are parameters of every definition that uses them.
* C `int` values are `Int`.  The index arithmetic stays below `2 * NENV`.  The
  two increments (`q_execution_count++`, `executions++`) are 32-bit: their
  result is reduced by `wrap_int`, so `INT_MAX + 1` is `INT_MIN`.  The
  decrement `env_priority--` is guarded by `env_priority > MIN_PRIORITY` and
  cannot leave the range.
* `env_run` and `sched_halt` never return.  A call is therefore modelled by a
  control result `Ctl`: either the statement sequence goes on (`returned`) or
  control has left `sched_yield` for good (`noreturn`).
-/

namespace Sched

/-! ## Constants of `kern/sched.c` -/

/-- Number of executions of an env in a queue before it is downgraded. -/
def MAX_EXECS : Int := 10

/-- Total number of queues. -/
def MAX_QUEUES : Int := 5

/-- Number of scheduler executions before all jobs are upgraded. -/
def EXECS_BEFORE_UPGRADE : Int := 50

/-- The value a 32-bit `int` holds after an arithmetic result `x`
(two's complement, `x` reduced modulo `2^32` into `[-2^31, 2^31)`). -/
def wrap_int (x : Int) : Int := (x + 2147483648) % 4294967296 - 2147483648

/-! ## Data model -/

/-- Values of `env_status`. -/
inductive EnvStatus
  | ENV_FREE
  | ENV_DYING
  | ENV_RUNNABLE
  | ENV_RUNNING
  | ENV_NOT_RUNNABLE
  deriving DecidableEq, Repr

open EnvStatus

/-- The fields of `struct Env` that the scheduler reads or writes. -/
structure Env where
  env_status : EnvStatus
  env_priority : Int
  q_execution_count : Int
  deriving DecidableEq, Repr

/-- Values of `thiscpu->cpu_status` that matter here. -/
inductive CpuStatus
  | CPU_STARTED
  | CPU_HALTED
  deriving DecidableEq, Repr

/-- Externally visible effects of `sched_halt`, in the order they are issued. -/
inductive Event
  | cprintf_no_runnable
  | monitor_loop
  | curenv_cleared
  | lcr3_kern_pgdir
  | xchg_cpu_halted
  | unlock_kernel
  | sti_hlt_loop
  deriving DecidableEq, Repr

/-- The kernel state the scheduler works on. -/
structure Kernel where
  envs : List Env
  curenv : Option Nat
  executions : Int
  cpu_status : CpuStatus
  kernel_locked : Bool
  events : List Event
  deriving DecidableEq, Repr

/-- How a call of `sched_yield` or `sched_halt` ends. -/
inductive Outcome
  | dispatched (index : Nat)
  | monitor
  | halted
  deriving DecidableEq, Repr

/-- Control result of a statement: the sequence continues, or control never
comes back. -/
inductive Ctl
  | returned (k : Kernel)
  | noreturn (o : Outcome) (k : Kernel)
  deriving DecidableEq, Repr

/-- Sequencing of statements: what follows a call that never returns is not
executed. -/
def Ctl.andThen (c : Ctl) (rest : Kernel → Ctl) : Ctl :=
  match c with
  | Ctl.returned k => rest k
  | Ctl.noreturn o k => Ctl.noreturn o k

/-- The outcome of a finished call, if control has left. -/
def Ctl.outcome (c : Ctl) : Option Outcome :=
  match c with
  | Ctl.returned _ => none
  | Ctl.noreturn o _ => some o

/-- The kernel state at the end of the statement sequence. -/
def Ctl.state (c : Ctl) : Kernel :=
  match c with
  | Ctl.returned k => k
  | Ctl.noreturn _ k => k

/-- Table capacity `NENV`. -/
def NENV (k : Kernel) : Nat := k.envs.length

/-- The filler read for an index outside the table; the code never reads one. -/
def Env.free : Env := ⟨ENV_FREE, 0, 0⟩

/-- The record `envs[i]`. -/
def envAt (envs : List Env) (i : Nat) : Env := envs.getD i Env.free

/-- Modelled from the spec: `env_run` (defined in `kern/env.c`, outside
`kern/sched.c`) performs the context switch to the chosen environment and does
not come back to the statement after the call; the round-robin loop depends on
that. The state recorded is the one at the moment of the call. -/
def env_run (index : Nat) (k : Kernel) : Ctl :=
  Ctl.noreturn (Outcome.dispatched index) k

/-! ## `sched_halt` -/

/-- The liveness loop of `sched_halt` (`for (i = 0; i < NENV; i++) ... break`):
`n` iterations remain, the result is the value of `i` when the loop is left. -/
def halt_for (envs : List Env) : Nat → Nat → Nat
  | 0, i => i
  | n + 1, i =>
    if (envAt envs i).env_status = ENV_RUNNABLE ∨
        (envAt envs i).env_status = ENV_RUNNING ∨
        (envAt envs i).env_status = ENV_DYING then
      i
    else
      halt_for envs n (i + 1)

/-- The function `sched_halt`. -/
def sched_halt (k : Kernel) : Ctl :=
  let i := halt_for k.envs (NENV k) 0
  if i = NENV k then
    Ctl.noreturn Outcome.monitor
      { k with events := k.events ++ [Event.cprintf_no_runnable, Event.monitor_loop] }
  else
    let k1 := { k with curenv := none, events := k.events ++ [Event.curenv_cleared] }
    let k2 := { k1 with events := k1.events ++ [Event.lcr3_kern_pgdir] }
    let k3 := { k2 with cpu_status := CpuStatus.CPU_HALTED,
                        events := k2.events ++ [Event.xchg_cpu_halted] }
    let k4 := { k3 with kernel_locked := false,
                        events := k3.events ++ [Event.unlock_kernel] }
    Ctl.noreturn Outcome.halted { k4 with events := k4.events ++ [Event.sti_hlt_loop] }

/-! ## `sched_yield`, round-robin policy -/

/-- The value of `current_index` after `if (curenv) current_index = ENVX(...) + 1`. -/
def current_index (k : Kernel) : Nat :=
  match k.curenv with
  | some c => c + 1
  | none => 0

/-- The loop `for (int i = 0; i < NENV; i++)` of the round-robin policy:
`n` iterations remain and `i` is the loop variable. -/
def rr_for (cur : Nat) : Nat → Nat → Kernel → Ctl
  | 0, _, k => Ctl.returned k
  | n + 1, i, k =>
    let index := (cur + i) % NENV k
    (if (envAt k.envs index).env_status = ENV_RUNNABLE then env_run index k
     else Ctl.returned k).andThen (rr_for cur n (i + 1))

/-- The test `curenv && (curenv->env_status == ENV_RUNNING)`. -/
def curenv_running (k : Kernel) : Option Nat :=
  match k.curenv with
  | some c => if (envAt k.envs c).env_status = ENV_RUNNING then some c else none
  | none => none

/-- The function `sched_yield` compiled with `SCHED_ROUND_ROBIN`. -/
def sched_yield_round_robin (k : Kernel) : Ctl :=
  (rr_for (current_index k) (NENV k) 0 k).andThen fun k1 =>
  (match curenv_running k1 with
   | some c => env_run c k1
   | none => Ctl.returned k1).andThen fun k2 =>
  sched_halt k2

/-! ## `sched_yield`, priority policy -/

/-- The selection loop `for (int i = current_index % NENV; i < NENV; i++)`:
`n` iterations remain, `i` is the loop variable, the pair is
`(env, current_priority)`. -/
def prio_for (envs : List Env) : Nat → Nat → Option Nat × Int → Option Nat × Int
  | 0, _, acc => acc
  | n + 1, i, acc =>
    if (envAt envs i).env_status = ENV_RUNNABLE ∧ (envAt envs i).env_priority > acc.2 then
      prio_for envs n (i + 1) (some i, (envAt envs i).env_priority)
    else
      prio_for envs n (i + 1) acc

/-- The record chosen by the selection loop (`env`, `NULL` being `none`). -/
def priority_scan (MIN_PRIORITY : Int) (k : Kernel) : Option Nat :=
  let start := current_index k % NENV k
  (prio_for k.envs (NENV k - start) start (none, MIN_PRIORITY)).1

/-- The statements `env->q_execution_count++; if (...) { env->env_priority--;
env->q_execution_count = 0; }` applied to one record. -/
def count_execution (MIN_PRIORITY : Int) (e : Env) : Env :=
  let e1 := { e with q_execution_count := wrap_int (e.q_execution_count + 1) }
  if e1.q_execution_count ≥ MAX_EXECS ∧ e1.env_priority > MIN_PRIORITY then
    { e1 with env_priority := e1.env_priority - 1, q_execution_count := 0 }
  else
    e1

/-- The same statements on the table, for `env = &envs[index]`. -/
def downgrade_step (MIN_PRIORITY : Int) (index : Nat) (k : Kernel) : Kernel :=
  { k with envs := k.envs.set index (count_execution MIN_PRIORITY (envAt k.envs index)) }

/-- The loop `for (int i = 0; i < NENV; i++)` of the global upgrade. -/
def upgrade_for (MAX_PRIORITY : Int) : Nat → Nat → List Env → List Env
  | 0, _, envs => envs
  | n + 1, i, envs =>
    upgrade_for MAX_PRIORITY n (i + 1)
      (envs.set i { envAt envs i with env_priority := MAX_PRIORITY, q_execution_count := 0 })

/-- The statements `executions++; if (executions >= EXECS_BEFORE_UPGRADE) ...`. -/
def upgrade_step (MAX_PRIORITY : Int) (k : Kernel) : Kernel :=
  let k1 := { k with executions := wrap_int (k.executions + 1) }
  if k1.executions ≥ EXECS_BEFORE_UPGRADE then
    { k1 with envs := upgrade_for MAX_PRIORITY (NENV k1) 0 k1.envs }
  else
    k1

/-- The function `sched_yield` compiled with `SCHED_PRIORITIES`. -/
def sched_yield_priorities (MIN_PRIORITY MAX_PRIORITY : Int) (k : Kernel) : Ctl :=
  (match priority_scan MIN_PRIORITY k with
   | some env =>
     (env_run env k).andThen fun k1 => Ctl.returned (downgrade_step MIN_PRIORITY env k1)
   | none =>
     match curenv_running k with
     | some c => env_run c k
     | none => sched_halt k).andThen fun k2 =>
  (Ctl.returned (upgrade_step MAX_PRIORITY k2)).andThen fun k3 =>
  sched_halt k3

/-! ## Example tables -/

/-- An initial kernel state around a table and a current environment. -/
def mkKernel (envs : List Env) (curenv : Option Nat) : Kernel :=
  ⟨envs, curenv, 0, CpuStatus.CPU_STARTED, true, []⟩

/-- The five-slot scenario: FREE, RUNNABLE (3), RUNNABLE (5), RUNNING, FREE,
the environment of slot 3 being the current one. -/
def scenario5 : Kernel :=
  mkKernel [⟨ENV_FREE, 0, 0⟩, ⟨ENV_RUNNABLE, 3, 0⟩, ⟨ENV_RUNNABLE, 5, 0⟩,
            ⟨ENV_RUNNING, 4, 0⟩, ⟨ENV_FREE, 0, 0⟩] (some 3)

/-- Three runnable records of equal priority around a running one: slots 0, 2
and 3 are RUNNABLE with priority 3, slot 1 is the current environment. -/
def tie4 : Kernel :=
  mkKernel [⟨ENV_RUNNABLE, 3, 0⟩, ⟨ENV_RUNNING, 3, 0⟩, ⟨ENV_RUNNABLE, 3, 0⟩,
            ⟨ENV_RUNNABLE, 3, 0⟩] (some 1)

/-- A table without RUNNABLE record whose slot 0 is the current environment,
still RUNNING. -/
def idle2 : Kernel :=
  mkKernel [⟨ENV_RUNNING, 2, 7⟩, ⟨ENV_FREE, 0, 0⟩] (some 0)

/-- A table with a single RUNNABLE record of the given priority and count and no
current environment. -/
def single (priority count : Int) : Kernel :=
  mkKernel [⟨ENV_RUNNABLE, priority, count⟩] none

/-- A table in the middle of its life: slot 0 is RUNNABLE with priority 2 and
count 9, slot 1 is RUNNABLE at priority 0 with count 10, slot 2 is the current
environment; 49 scheduling decisions have been counted. -/
def busy3 : Kernel :=
  ⟨[⟨ENV_RUNNABLE, 2, 9⟩, ⟨ENV_RUNNABLE, 0, 10⟩, ⟨ENV_RUNNING, 1, 3⟩], some 2, 49,
    CpuStatus.CPU_STARTED, true, []⟩

/-! ## Predicates used in the statements -/

/-- Record `i` is RUNNABLE and no RUNNABLE record of the table has a greater
priority. -/
def TopRunnable (k : Kernel) (i : Nat) : Prop :=
  i < NENV k ∧ (envAt k.envs i).env_status = ENV_RUNNABLE ∧
  ∀ u, u < NENV k → (envAt k.envs u).env_status = ENV_RUNNABLE →
    (envAt k.envs u).env_priority ≤ (envAt k.envs i).env_priority

/-- Every priority of the table lies in `[MIN_PRIORITY, MAX_PRIORITY]`. -/
def PrioritiesInRange (MIN_PRIORITY MAX_PRIORITY : Int) (envs : List Env) : Prop :=
  ∀ e, e ∈ envs → MIN_PRIORITY ≤ e.env_priority ∧ e.env_priority ≤ MAX_PRIORITY

/-- The status test of the liveness loop of `sched_halt`. -/
def Live (e : Env) : Prop :=
  e.env_status = ENV_RUNNABLE ∨ e.env_status = ENV_RUNNING ∨ e.env_status = ENV_DYING

/-- No record of the table is RUNNABLE, RUNNING or DYING. -/
def NoLiveEnv (envs : List Env) : Prop :=
  ∀ i, i < envs.length → ¬ Live (envAt envs i)

/-- The effects issued since the state `k`, given the later event list. -/
def events_since (k : Kernel) (events : List Event) : List Event :=
  events.drop k.events.length

/-- Record `i` is visited by the selection loop of the priority policy, RUNNABLE,
and of priority above `MIN_PRIORITY`. -/
def Candidate (MIN_PRIORITY : Int) (k : Kernel) (i : Nat) : Prop :=
  current_index k % NENV k ≤ i ∧ i < NENV k ∧
  (envAt k.envs i).env_status = ENV_RUNNABLE ∧ MIN_PRIORITY < (envAt k.envs i).env_priority

/-- Every record above `MIN_PRIORITY` has a count in `[0, MAX_EXECS)`. -/
def CountsBelowMax (MIN_PRIORITY : Int) (envs : List Env) : Prop :=
  ∀ e, e ∈ envs → MIN_PRIORITY < e.env_priority →
    0 ≤ e.q_execution_count ∧ e.q_execution_count < MAX_EXECS

/-- The state a call of the priority policy leaves behind. -/
def yield_state (MIN_PRIORITY MAX_PRIORITY : Int) (k : Kernel) : Kernel :=
  (sched_yield_priorities MIN_PRIORITY MAX_PRIORITY k).state

/-! ## Arithmetic of the 32-bit counters and of the circular index -/

theorem wrap_int_eq (x : Int) (h1 : -2147483648 ≤ x) (h2 : x < 2147483648) :
    wrap_int x = x := by
  unfold wrap_int
  omega

theorem wrap_int_range (x : Int) : -2147483648 ≤ wrap_int x ∧ wrap_int x < 2147483648 := by
  unfold wrap_int
  omega

theorem add_mod_left_mod (cur t n : Nat) : (cur + t) % n = (cur % n + t) % n := by
  rw [Nat.add_mod, Nat.add_mod (cur % n) t n, Nat.mod_mod]

theorem circ_lt (s t n : Nat) (h : s + t < n) : (s + t) % n = s + t :=
  Nat.mod_eq_of_lt h

theorem circ_ge (s t n : Nat) (hs : s < n) (ht : t < n) (h : n ≤ s + t) :
    (s + t) % n = s + t - n := by
  rw [Nat.mod_eq_sub_mod h]
  exact Nat.mod_eq_of_lt (by omega)

/-! ## The round-robin loop -/

theorem rr_for_none (cur : Nat) (k : Kernel) : ∀ (n i : Nat),
    (∀ u, u < n → (envAt k.envs ((cur + (i + u)) % NENV k)).env_status ≠ ENV_RUNNABLE) →
    rr_for cur n i k = Ctl.returned k := by
  intro n
  induction n with
  | zero => intro i _; rfl
  | succ n ih =>
    intro i h
    have h0 := h 0 (Nat.succ_pos n)
    simp only [Nat.add_zero] at h0
    have hrest : rr_for cur n (i + 1) k = Ctl.returned k := by
      apply ih
      intro u hu
      have := h (u + 1) (by omega)
      rwa [show i + (u + 1) = i + 1 + u by omega] at this
    simp only [rr_for, if_neg h0, Ctl.andThen, hrest]

theorem rr_for_first (cur : Nat) (k : Kernel) : ∀ (n i t : Nat), t < n →
    (envAt k.envs ((cur + (i + t)) % NENV k)).env_status = ENV_RUNNABLE →
    (∀ u, u < t → (envAt k.envs ((cur + (i + u)) % NENV k)).env_status ≠ ENV_RUNNABLE) →
    rr_for cur n i k = Ctl.noreturn (Outcome.dispatched ((cur + (i + t)) % NENV k)) k := by
  intro n
  induction n with
  | zero => intro i t ht; omega
  | succ n ih =>
    intro i t ht hrun hmin
    cases t with
    | zero =>
      simp only [Nat.add_zero] at hrun ⊢
      simp only [rr_for, if_pos hrun, env_run, Ctl.andThen]
    | succ t =>
      have h0 := hmin 0 (Nat.succ_pos t)
      simp only [Nat.add_zero] at h0
      have hrest := ih (i + 1) t (by omega)
        (by rwa [show i + 1 + t = i + (t + 1) by omega])
        (by
          intro u hu
          have := hmin (u + 1) (by omega)
          rwa [show i + (u + 1) = i + 1 + u by omega] at this)
      rw [show i + 1 + t = i + (t + 1) by omega] at hrest
      simp only [rr_for, if_neg h0, Ctl.andThen, hrest]

/-- Some offset below `NENV` reaches every slot of the table from any start. -/
theorem offset_reaches (cur i0 n : Nat) (hi0 : i0 < n) :
    ∃ t, t < n ∧ (cur + t) % n = i0 := by
  have hs : cur % n < n := Nat.mod_lt _ (by omega)
  by_cases h : cur % n ≤ i0
  · refine ⟨i0 - cur % n, by omega, ?_⟩
    rw [add_mod_left_mod, circ_lt _ _ _ (by omega)]
    omega
  · refine ⟨i0 + n - cur % n, by omega, ?_⟩
    rw [add_mod_left_mod, circ_ge _ _ _ hs (by omega) (by omega)]
    omega

/-! ## Facts about `sched_halt` and the round-robin loop, shared below -/

theorem sched_halt_noreturn (k : Kernel) :
    ∃ o k1, sched_halt k = Ctl.noreturn o k1 ∧ (o = Outcome.monitor ∨ o = Outcome.halted) ∧
      k1.envs = k.envs ∧ k1.executions = k.executions := by
  unfold sched_halt
  by_cases h : halt_for k.envs (NENV k) 0 = NENV k
  · simp only [h, if_true]
    exact ⟨_, _, rfl, Or.inl rfl, rfl, rfl⟩
  · simp only [h, if_false]
    exact ⟨_, _, rfl, Or.inr rfl, rfl, rfl⟩

theorem sched_halt_not_dispatched (k : Kernel) (j : Nat) :
    (sched_halt k).outcome ≠ some (Outcome.dispatched j) := by
  obtain ⟨o, k1, he, ho, _, _⟩ := sched_halt_noreturn k
  rw [he]
  rcases ho with ho | ho <;> subst ho <;> simp [Ctl.outcome]

theorem rr_for_cases (cur : Nat) (k : Kernel) : ∀ (n i : Nat),
    rr_for cur n i k = Ctl.returned k ∨
    ∃ j, rr_for cur n i k = Ctl.noreturn (Outcome.dispatched j) k ∧
      (envAt k.envs j).env_status = ENV_RUNNABLE := by
  intro n
  induction n with
  | zero => intro i; exact Or.inl rfl
  | succ n ih =>
    intro i
    by_cases h : (envAt k.envs ((cur + i) % NENV k)).env_status = ENV_RUNNABLE
    · right
      exact ⟨(cur + i) % NENV k, by simp only [rr_for, if_pos h, env_run, Ctl.andThen], h⟩
    · have : rr_for cur (n + 1) i k = rr_for cur n (i + 1) k := by
        simp only [rr_for, if_neg h, Ctl.andThen]
      rw [this]
      exact ih (i + 1)

theorem curenv_running_some (k : Kernel) (c : Nat) (h : curenv_running k = some c) :
    k.curenv = some c ∧ (envAt k.envs c).env_status = ENV_RUNNING := by
  unfold curenv_running at h
  cases hc : k.curenv with
  | none => simp [hc] at h
  | some d =>
    simp only [hc] at h
    by_cases hr : (envAt k.envs d).env_status = ENV_RUNNING
    · simp only [hr, if_true, Option.some.injEq] at h
      subst h
      exact ⟨rfl, hr⟩
    · simp [hr] at h

theorem curenv_running_of (k : Kernel) (c : Nat) (hc : k.curenv = some c)
    (hr : (envAt k.envs c).env_status = ENV_RUNNING) : curenv_running k = some c := by
  simp [curenv_running, hc, hr]

theorem curenv_running_none (k : Kernel)
    (h : ∀ c, k.curenv = some c → (envAt k.envs c).env_status ≠ ENV_RUNNING) :
    curenv_running k = none := by
  unfold curenv_running
  cases hc : k.curenv with
  | none => rfl
  | some d => simp [h d hc]

/-! ## The selection loop of the priority policy -/

theorem prio_for_spec (envs : List Env) : ∀ (n i : Nat) (acc : Option Nat × Int),
    (prio_for envs n i acc = acc ∧
      ∀ u, i ≤ u → u < i + n → (envAt envs u).env_status = ENV_RUNNABLE →
        (envAt envs u).env_priority ≤ acc.2) ∨
    (∃ j, i ≤ j ∧ j < i + n ∧ prio_for envs n i acc = (some j, (envAt envs j).env_priority) ∧
      (envAt envs j).env_status = ENV_RUNNABLE ∧ acc.2 < (envAt envs j).env_priority ∧
      (∀ u, i ≤ u → u < i + n → (envAt envs u).env_status = ENV_RUNNABLE →
        (envAt envs u).env_priority ≤ (envAt envs j).env_priority) ∧
      ∀ u, i ≤ u → u < j → (envAt envs u).env_status = ENV_RUNNABLE →
        (envAt envs u).env_priority < (envAt envs j).env_priority) := by
  intro n
  induction n with
  | zero =>
    intro i acc
    left
    exact ⟨rfl, by intro u h1 h2; omega⟩
  | succ n ih =>
    intro i acc
    by_cases hc : (envAt envs i).env_status = ENV_RUNNABLE ∧ (envAt envs i).env_priority > acc.2
    · have hstep : prio_for envs (n + 1) i acc =
          prio_for envs n (i + 1) (some i, (envAt envs i).env_priority) := by
        simp only [prio_for, if_pos hc]
      rw [hstep]
      right
      rcases ih (i + 1) (some i, (envAt envs i).env_priority) with ⟨he, hall⟩ | ⟨j, h1, h2, he, hr, hgt, hall, hbefore⟩
      · refine ⟨i, le_refl i, by omega, he, hc.1, hc.2, ?_, by intro u h1 h2; omega⟩
        intro u h1 h2 hr
        by_cases hui : u = i
        · subst hui; exact le_refl _
        · exact hall u (by omega) (by omega) hr
      · simp only at hgt
        refine ⟨j, by omega, by omega, he, hr, lt_trans hc.2 hgt, ?_, ?_⟩
        · intro u h1 h2 hru
          by_cases hui : u = i
          · subst hui; exact le_of_lt hgt
          · exact hall u (by omega) (by omega) hru
        · intro u h1 h2 hru
          by_cases hui : u = i
          · subst hui; exact hgt
          · exact hbefore u (by omega) h2 hru
    · have hstep : prio_for envs (n + 1) i acc = prio_for envs n (i + 1) acc := by
        simp only [prio_for, if_neg hc]
      rw [hstep]
      have hi : (envAt envs i).env_status = ENV_RUNNABLE → (envAt envs i).env_priority ≤ acc.2 := by
        intro hr
        by_contra hlt
        exact hc ⟨hr, lt_of_not_ge hlt⟩
      rcases ih (i + 1) acc with ⟨he, hall⟩ | ⟨j, h1, h2, he, hr, hgt, hall, hbefore⟩
      · left
        refine ⟨he, ?_⟩
        intro u h1 h2 hru
        by_cases hui : u = i
        · subst hui; exact hi hru
        · exact hall u (by omega) (by omega) hru
      · right
        refine ⟨j, by omega, by omega, he, hr, hgt, ?_, ?_⟩
        · intro u h1 h2 hru
          by_cases hui : u = i
          · subst hui; exact le_of_lt (lt_of_le_of_lt (hi hru) hgt)
          · exact hall u (by omega) (by omega) hru
        · intro u h1 h2 hru
          by_cases hui : u = i
          · subst hui; exact lt_of_le_of_lt (hi hru) hgt
          · exact hbefore u (by omega) h2 hru

/-- What a successful scan has found. -/
theorem priority_scan_some (minP : Int) (k : Kernel) (j : Nat)
    (h : priority_scan minP k = some j) :
    current_index k % NENV k ≤ j ∧ j < NENV k ∧
    (envAt k.envs j).env_status = ENV_RUNNABLE ∧ minP < (envAt k.envs j).env_priority ∧
    (∀ u, current_index k % NENV k ≤ u → u < NENV k →
      (envAt k.envs u).env_status = ENV_RUNNABLE →
      (envAt k.envs u).env_priority ≤ (envAt k.envs j).env_priority) ∧
    ∀ u, current_index k % NENV k ≤ u → u < j →
      (envAt k.envs u).env_status = ENV_RUNNABLE →
      (envAt k.envs u).env_priority < (envAt k.envs j).env_priority := by
  unfold priority_scan at h
  simp only at h
  rcases prio_for_spec k.envs (NENV k - current_index k % NENV k)
      (current_index k % NENV k) (none, minP) with ⟨he, _⟩ | ⟨j1, h1, h2, he, hr, hgt, hall, hbefore⟩
  · rw [he] at h
    simp at h
  · rw [he] at h
    simp only [Option.some.injEq] at h
    subst h
    exact ⟨h1, by omega, hr, hgt, fun u hu1 hu2 => hall u hu1 (by omega), hbefore⟩

/-- What an unsuccessful scan has seen. -/
theorem priority_scan_none (minP : Int) (k : Kernel) (h : priority_scan minP k = none) :
    ∀ u, current_index k % NENV k ≤ u → u < NENV k →
      (envAt k.envs u).env_status = ENV_RUNNABLE → (envAt k.envs u).env_priority ≤ minP := by
  unfold priority_scan at h
  simp only at h
  rcases prio_for_spec k.envs (NENV k - current_index k % NENV k)
      (current_index k % NENV k) (none, minP) with ⟨_, hall⟩ | ⟨j1, _, _, he, _⟩
  · intro u hu1 hu2
    exact hall u hu1 (by omega)
  · rw [he] at h
    simp at h

/-- The scan finds nothing in a table without RUNNABLE records. -/
theorem priority_scan_no_runnable (minP : Int) (k : Kernel)
    (hno : ∀ i, i < NENV k → (envAt k.envs i).env_status ≠ ENV_RUNNABLE) :
    priority_scan minP k = none := by
  cases h : priority_scan minP k with
  | none => rfl
  | some j =>
    obtain ⟨_, hj, hr, _⟩ := priority_scan_some minP k j h
    exact absurd hr (hno j hj)

/-- Every path of the priority policy ends in `env_run` or `sched_halt` on the
state the call started from. -/
theorem sched_yield_priorities_eq (minP maxP : Int) (k : Kernel) :
    sched_yield_priorities minP maxP k =
      match priority_scan minP k with
      | some env => Ctl.noreturn (Outcome.dispatched env) k
      | none =>
        match curenv_running k with
        | some c => Ctl.noreturn (Outcome.dispatched c) k
        | none => sched_halt k := by
  unfold sched_yield_priorities
  cases priority_scan minP k with
  | some env => simp only [env_run, Ctl.andThen]
  | none =>
    cases curenv_running k with
    | some c => simp only [env_run, Ctl.andThen]
    | none =>
      obtain ⟨o, k1, he, _⟩ := sched_halt_noreturn k
      simp only [he, Ctl.andThen]

/-- One call of the priority policy leaves the table and the counter as they
were. -/
theorem sched_yield_priorities_frame (minP maxP : Int) (k : Kernel) :
    (sched_yield_priorities minP maxP k).state.envs = k.envs ∧
    (sched_yield_priorities minP maxP k).state.executions = k.executions := by
  rw [sched_yield_priorities_eq]
  cases priority_scan minP k with
  | some env => exact ⟨rfl, rfl⟩
  | none =>
    cases curenv_running k with
    | some c => exact ⟨rfl, rfl⟩
    | none =>
      obtain ⟨o, k1, he, _, h1, h2⟩ := sched_halt_noreturn k
      simp only [he, Ctl.state]
      exact ⟨h1, h2⟩

/-! ## Round-robin policy: the dispatched record -/

/-- C1: under the round-robin policy, when the table holds a RUNNABLE record,
`sched_yield` dispatches the first RUNNABLE record in circular order from
`start = current_index % NENV` (that is `(last + 1) mod N`, or 0 without a
current environment): the smallest RUNNABLE index at or above `start` if there
is one, otherwise the smallest RUNNABLE index of the table. -/
theorem round_robin_dispatches_next_runnable (k : Kernel)
    (hex : ∃ i, i < NENV k ∧ (envAt k.envs i).env_status = ENV_RUNNABLE) :
    ∃ j, sched_yield_round_robin k = Ctl.noreturn (Outcome.dispatched j) k ∧
      j < NENV k ∧ (envAt k.envs j).env_status = ENV_RUNNABLE ∧
      ((current_index k % NENV k ≤ j ∧
          ∀ i, current_index k % NENV k ≤ i → i < j →
            (envAt k.envs i).env_status ≠ ENV_RUNNABLE) ∨
       (j < current_index k % NENV k ∧
          (∀ i, current_index k % NENV k ≤ i → i < NENV k →
            (envAt k.envs i).env_status ≠ ENV_RUNNABLE) ∧
          ∀ i, i < j → (envAt k.envs i).env_status ≠ ENV_RUNNABLE)) := by
  obtain ⟨i0, hi0, hrun0⟩ := hex
  have hN : 0 < NENV k := by omega
  have hs : current_index k % NENV k < NENV k := Nat.mod_lt _ hN
  have hP : ∃ t, t < NENV k ∧
      (envAt k.envs ((current_index k + t) % NENV k)).env_status = ENV_RUNNABLE := by
    obtain ⟨t, ht, he⟩ := offset_reaches (current_index k) i0 (NENV k) hi0
    exact ⟨t, ht, by rw [he]; exact hrun0⟩
  obtain ⟨ht, hrun⟩ := Nat.find_spec hP
  have hmin : ∀ u, u < Nat.find hP → u < NENV k →
      (envAt k.envs ((current_index k + u) % NENV k)).env_status ≠ ENV_RUNNABLE := by
    intro u hu hun hr
    exact Nat.find_min hP hu ⟨hun, hr⟩
  generalize Nat.find hP = t at ht hrun hmin
  have hloop := rr_for_first (current_index k) k (NENV k) 0 t ht
    (by rwa [Nat.zero_add])
    (by intro u hu; rw [Nat.zero_add]; exact hmin u hu (by omega))
  rw [Nat.zero_add] at hloop
  refine ⟨(current_index k + t) % NENV k, ?_, Nat.mod_lt _ hN, hrun, ?_⟩
  · simp only [sched_yield_round_robin, hloop, Ctl.andThen]
  · rw [add_mod_left_mod] at hrun ⊢
    have hmin2 : ∀ u, u < t →
        (envAt k.envs ((current_index k % NENV k + u) % NENV k)).env_status ≠ ENV_RUNNABLE := by
      intro u hu
      rw [← add_mod_left_mod]
      exact hmin u hu (by omega)
    generalize current_index k % NENV k = s at hs hrun hmin2 ⊢
    by_cases hlt : s + t < NENV k
    · left
      rw [circ_lt _ _ _ hlt]
      refine ⟨by omega, ?_⟩
      intro i hsi hij
      have := hmin2 (i - s) (by omega)
      rwa [circ_lt _ _ _ (by omega), show s + (i - s) = i by omega] at this
    · right
      rw [circ_ge _ _ _ hs ht (by omega)]
      refine ⟨by omega, ?_, ?_⟩
      · intro i hsi hiN
        have := hmin2 (i - s) (by omega)
        rwa [circ_lt _ _ _ (by omega), show s + (i - s) = i by omega] at this
      · intro i hij
        have := hmin2 (i + NENV k - s) (by omega)
        rwa [circ_ge _ _ _ hs (by omega) (by omega),
          show s + (i + NENV k - s) - NENV k = i by omega] at this

/-- Witness for C1: statuses FREE, RUNNABLE, RUNNABLE, RUNNING, FREE with the
environment of slot 3 current; slot 1 is dispatched. -/
theorem round_robin_dispatches_next_runnable_witness :
    (∃ i, i < NENV scenario5 ∧ (envAt scenario5.envs i).env_status = ENV_RUNNABLE) ∧
    sched_yield_round_robin scenario5 = Ctl.noreturn (Outcome.dispatched 1) scenario5 ∧
    ∃ j, sched_yield_round_robin scenario5 = Ctl.noreturn (Outcome.dispatched j) scenario5 ∧
      j < NENV scenario5 ∧ (envAt scenario5.envs j).env_status = ENV_RUNNABLE ∧
      ((current_index scenario5 % NENV scenario5 ≤ j ∧
          ∀ i, current_index scenario5 % NENV scenario5 ≤ i → i < j →
            (envAt scenario5.envs i).env_status ≠ ENV_RUNNABLE) ∨
       (j < current_index scenario5 % NENV scenario5 ∧
          (∀ i, current_index scenario5 % NENV scenario5 ≤ i → i < NENV scenario5 →
            (envAt scenario5.envs i).env_status ≠ ENV_RUNNABLE) ∧
          ∀ i, i < j → (envAt scenario5.envs i).env_status ≠ ENV_RUNNABLE)) :=
  ⟨⟨1, by decide, by decide⟩, by decide,
    round_robin_dispatches_next_runnable scenario5 ⟨1, by decide, by decide⟩⟩

/-! ## Priority policy: the record selected -/

/-- C2: in the five-slot scenario (FREE, RUNNABLE 3, RUNNABLE 5, RUNNING, FREE,
slot 3 current) the selection loop starts at slot 4 and stops at the table end,
so it finds nothing although slot 2 is RUNNABLE with the greatest priority; the
call re-dispatches slot 3. -/
theorem priority_scenario_redispatches_curenv (minP maxP : Int) :
    priority_scan minP scenario5 = none ∧
    sched_yield_priorities minP maxP scenario5 =
      Ctl.noreturn (Outcome.dispatched 3) scenario5 ∧
    TopRunnable scenario5 2 ∧ (envAt scenario5.envs 2).env_priority = 5 := by
  have hscan : priority_scan minP scenario5 = none := by
    simp [priority_scan, prio_for, scenario5, mkKernel, current_index, NENV, envAt]
  refine ⟨hscan, ?_, ?_, by decide⟩
  · rw [sched_yield_priorities_eq, hscan]
    rfl
  · unfold TopRunnable
    decide

/-- C3, as stated, fails: in `tie4` the RUNNABLE records 0, 2 and 3 share the
greatest priority and the loop, which starts after the current slot 1, selects
slot 2, not slot 0; this for every `MIN_PRIORITY` below 3. -/
theorem priority_tie_break_counterexample :
    ¬ ∃ minP : Int, minP < 3 ∧
      ∀ a b, a ≠ b → TopRunnable tie4 a → TopRunnable tie4 b →
        ∃ j, priority_scan minP tie4 = some j ∧ TopRunnable tie4 j ∧
          ∀ i, TopRunnable tie4 i → j ≤ i := by
  rintro ⟨minP, hlt, h⟩
  have h0 : TopRunnable tie4 0 := by unfold TopRunnable; decide
  have h2 : TopRunnable tie4 2 := by unfold TopRunnable; decide
  obtain ⟨j, hj, _, hmin⟩ := h 0 2 (by decide) h0 h2
  have hscan : priority_scan minP tie4 = some 2 := by
    have h3 : ¬ (3 : Int) > 3 := by decide
    simp [priority_scan, prio_for, tie4, mkKernel, current_index, NENV, envAt, hlt, h3]
  rw [hscan] at hj
  simp only [Option.some.injEq] at hj
  subst hj
  have := hmin 0 h0
  omega

/-- C3, amended: when several RUNNABLE records share the greatest priority of
all RUNNABLE records, that priority is above `MIN_PRIORITY`, and one of them
(`a`) lies at or after the start index `current_index % NENV` of the selection
loop, the loop selects the one of them with the lowest slot index at or after
the start index. -/
theorem priority_scan_tie_break (minP : Int) (k : Kernel) (a b : Nat) (_hab : a ≠ b)
    (ha : TopRunnable k a) (_hb : TopRunnable k b)
    (hmin : minP < (envAt k.envs a).env_priority)
    (hstart : current_index k % NENV k ≤ a) :
    ∃ j, priority_scan minP k = some j ∧ TopRunnable k j ∧
      current_index k % NENV k ≤ j ∧
      ∀ i, TopRunnable k i → current_index k % NENV k ≤ i → j ≤ i := by
  obtain ⟨ha1, ha2, ha3⟩ := ha
  cases hs : priority_scan minP k with
  | none =>
    have := priority_scan_none minP k hs a hstart ha1 ha2
    omega
  | some j =>
    obtain ⟨hj1, hj2, hj3, _, hall, hbefore⟩ := priority_scan_some minP k j hs
    have hge := hall a hstart ha1 ha2
    have hle := ha3 j hj2 hj3
    refine ⟨j, rfl, ⟨hj2, hj3, ?_⟩, hj1, ?_⟩
    · intro u hu1 hu2
      have := ha3 u hu1 hu2
      omega
    · intro i hi hsi
      obtain ⟨hi1, hi2, hi3⟩ := hi
      by_contra hlt
      have h1 := hbefore i hsi (by omega) hi2
      have h2 := hi3 j hj2 hj3
      omega

/-- Witness for the amended C3: in `tie4` slots 0, 2 and 3 share the greatest
priority, the loop starts at slot 2 and selects slot 2. -/
theorem priority_scan_tie_break_witness :
    (2 : Nat) ≠ 0 ∧ TopRunnable tie4 2 ∧ TopRunnable tie4 0 ∧
    (0 : Int) < (envAt tie4.envs 2).env_priority ∧
    current_index tie4 % NENV tie4 ≤ 2 ∧
    priority_scan 0 tie4 = some 2 ∧
    ∃ j, priority_scan 0 tie4 = some j ∧ TopRunnable tie4 j ∧
      current_index tie4 % NENV tie4 ≤ j ∧
      ∀ i, TopRunnable tie4 i → current_index tie4 % NENV tie4 ≤ i → j ≤ i :=
  ⟨by decide, by unfold TopRunnable; decide, by unfold TopRunnable; decide, by decide,
    by decide, by decide,
    priority_scan_tie_break 0 tie4 2 0 (by decide) (by unfold TopRunnable; decide)
      (by unfold TopRunnable; decide) (by decide) (by decide)⟩

/-! ## Both policies: what may be dispatched -/

/-- C4: a record handed to `env_run` by `sched_yield`, under either policy, is
RUNNABLE or is this CPU's own current environment with status RUNNING; a record
RUNNING elsewhere is never dispatched. -/
theorem dispatched_runnable_or_own_running (minP maxP : Int) (k : Kernel) (j : Nat)
    (h : (sched_yield_round_robin k).outcome = some (Outcome.dispatched j) ∨
      (sched_yield_priorities minP maxP k).outcome = some (Outcome.dispatched j)) :
    (envAt k.envs j).env_status = ENV_RUNNABLE ∨
    (k.curenv = some j ∧ (envAt k.envs j).env_status = ENV_RUNNING) := by
  rcases h with h | h
  · unfold sched_yield_round_robin at h
    rcases rr_for_cases (current_index k) k (NENV k) 0 with hl | ⟨i, hl, hr⟩
    · rw [hl] at h
      simp only [Ctl.andThen] at h
      cases hc : curenv_running k with
      | some c =>
        simp only [hc, env_run, Ctl.andThen, Ctl.outcome, Option.some.injEq,
          Outcome.dispatched.injEq] at h
        subst h
        exact Or.inr (curenv_running_some k c hc)
      | none =>
        simp only [hc, Ctl.andThen] at h
        exact absurd h (sched_halt_not_dispatched k j)
    · rw [hl] at h
      simp only [Ctl.andThen, Ctl.outcome, Option.some.injEq, Outcome.dispatched.injEq] at h
      subst h
      exact Or.inl hr
  · rw [sched_yield_priorities_eq] at h
    cases hs : priority_scan minP k with
    | some env =>
      simp only [hs, Ctl.outcome, Option.some.injEq, Outcome.dispatched.injEq] at h
      subst h
      exact Or.inl (priority_scan_some minP k env hs).2.2.1
    | none =>
      simp only [hs] at h
      cases hc : curenv_running k with
      | some c =>
        simp only [hc, Ctl.outcome, Option.some.injEq, Outcome.dispatched.injEq] at h
        subst h
        exact Or.inr (curenv_running_some k c hc)
      | none =>
        simp only [hc] at h
        exact absurd h (sched_halt_not_dispatched k j)

/-- Witness for C4: the round-robin policy dispatches slot 1 of the five-slot
scenario, which is RUNNABLE. -/
theorem dispatched_runnable_or_own_running_witness :
    (sched_yield_round_robin scenario5).outcome = some (Outcome.dispatched 1) ∧
    ((envAt scenario5.envs 1).env_status = ENV_RUNNABLE ∨
      (scenario5.curenv = some 1 ∧ (envAt scenario5.envs 1).env_status = ENV_RUNNING)) :=
  ⟨by decide, dispatched_runnable_or_own_running 0 5 scenario5 1 (Or.inl (by decide))⟩

/-! ## Priority policy: the bookkeeping statements -/

theorem count_execution_range (minP maxP : Int) (e : Env)
    (h : minP ≤ e.env_priority ∧ e.env_priority ≤ maxP) :
    minP ≤ (count_execution minP e).env_priority ∧
    (count_execution minP e).env_priority ≤ maxP := by
  unfold count_execution
  simp only
  split
  · rename_i hc
    simp only at hc ⊢
    omega
  · exact h

theorem envAt_mem (envs : List Env) (i : Nat) (h : i < envs.length) : envAt envs i ∈ envs := by
  unfold envAt
  rw [List.getD_eq_getElem envs Env.free h]
  exact List.getElem_mem h

theorem downgrade_step_range (minP maxP : Int) (j : Nat) (k : Kernel)
    (h : PrioritiesInRange minP maxP k.envs) :
    PrioritiesInRange minP maxP (downgrade_step minP j k).envs := by
  unfold downgrade_step
  simp only
  by_cases hj : j < k.envs.length
  · intro e he
    rcases List.mem_or_eq_of_mem_set he with he | he
    · exact h e he
    · subst he
      exact count_execution_range minP maxP _ (h _ (envAt_mem k.envs j hj))
  · rw [List.set_eq_of_length_le (by omega)]
    exact h

theorem upgrade_for_range (minP maxP : Int) (hle : minP ≤ maxP) : ∀ (n i : Nat) (envs : List Env),
    PrioritiesInRange minP maxP envs →
    PrioritiesInRange minP maxP (upgrade_for maxP n i envs) := by
  intro n
  induction n with
  | zero => intro i envs h; exact h
  | succ n ih =>
    intro i envs h
    simp only [upgrade_for]
    apply ih
    intro e he
    rcases List.mem_or_eq_of_mem_set he with he | he
    · exact h e he
    · subst he
      exact ⟨hle, le_refl _⟩

theorem upgrade_step_range (minP maxP : Int) (k : Kernel)
    (h : PrioritiesInRange minP maxP k.envs) :
    PrioritiesInRange minP maxP (upgrade_step maxP k).envs := by
  unfold upgrade_step
  simp only
  split
  · cases henvs : k.envs with
    | nil => simp [NENV, henvs, upgrade_for, PrioritiesInRange]
    | cons e rest =>
      have he := h e (by rw [henvs]; exact List.mem_cons_self e rest)
      rw [← henvs]
      exact upgrade_for_range minP maxP (by omega) _ _ _ h
  · exact h

theorem yield_state_iterate (minP maxP : Int) (k : Kernel) : ∀ n : Nat,
    ((yield_state minP maxP)^[n] k).envs = k.envs ∧
    ((yield_state minP maxP)^[n] k).executions = k.executions := by
  intro n
  induction n with
  | zero => exact ⟨rfl, rfl⟩
  | succ n ih =>
    rw [Function.iterate_succ_apply']
    obtain ⟨h1, h2⟩ := sched_yield_priorities_frame minP maxP ((yield_state minP maxP)^[n] k)
    unfold yield_state at h1 h2 ⊢
    exact ⟨h1.trans ih.1, h2.trans ih.2⟩

/-- C5: a RUNNABLE record of priority `MIN_PRIORITY + 1` and count 0, alone in
the table, is selected and dispatched, and the call leaves its count at 0: the
call ends in `env_run`, before the counting statements, which would have made
the count 1. -/
theorem priority_dispatch_skips_counting (minP maxP : Int) :
    priority_scan minP (single (minP + 1) 0) = some 0 ∧
    sched_yield_priorities minP maxP (single (minP + 1) 0) =
      Ctl.noreturn (Outcome.dispatched 0) (single (minP + 1) 0) ∧
    (yield_state minP maxP (single (minP + 1) 0)).envs = [⟨ENV_RUNNABLE, minP + 1, 0⟩] ∧
    (downgrade_step minP 0 (single (minP + 1) 0)).envs = [⟨ENV_RUNNABLE, minP + 1, 1⟩] := by
  have hscan : priority_scan minP (single (minP + 1) 0) = some 0 := by
    simp [priority_scan, prio_for, single, mkKernel, current_index, NENV, envAt]
  have hcall : sched_yield_priorities minP maxP (single (minP + 1) 0) =
      Ctl.noreturn (Outcome.dispatched 0) (single (minP + 1) 0) := by
    rw [sched_yield_priorities_eq, hscan]
  refine ⟨hscan, hcall, ?_, ?_⟩
  · rw [yield_state, hcall]
    rfl
  · simp [downgrade_step, count_execution, single, mkKernel, envAt, MAX_EXECS, wrap_int]

/-- C6: whatever the table, any number of successive calls of the priority
policy (50 in particular) leaves the counter `executions` and every record as
they were, so the global upgrade is never reached; and the upgrade statements
themselves leave the counter incremented (as a 32-bit `int`), never assigned 0:
from 49 it becomes 50. -/
theorem global_upgrade_never_reached (minP maxP : Int) :
    (∀ (k : Kernel) (n : Nat), ((yield_state minP maxP)^[n] k).envs = k.envs ∧
      ((yield_state minP maxP)^[n] k).executions = k.executions) ∧
    ((yield_state minP maxP)^[50] (single (minP + 1) 0)).envs =
      [⟨ENV_RUNNABLE, minP + 1, 0⟩] ∧
    ((yield_state minP maxP)^[50] (single (minP + 1) 0)).executions = 0 ∧
    (∀ k : Kernel, (upgrade_step maxP k).executions = wrap_int (k.executions + 1)) ∧
    (upgrade_step maxP busy3).executions = 50 := by
  refine ⟨fun k n => yield_state_iterate minP maxP k n, ?_, ?_, ?_, ?_⟩
  · rw [(yield_state_iterate minP maxP _ 50).1]
    rfl
  · rw [(yield_state_iterate minP maxP _ 50).2]
    rfl
  · intro k
    unfold upgrade_step
    simp only
    split <;> rfl
  · unfold upgrade_step
    simp only
    split
    · show wrap_int (busy3.executions + 1) = 50
      decide
    · show wrap_int (busy3.executions + 1) = 50
      decide

/-- C7: if every priority of the table lies in `[MIN_PRIORITY, MAX_PRIORITY]`
before a call of the priority policy, it does so in the state the call leaves,
and after the counting/downgrade statements (for any record), after the
global-upgrade statements, and after both in sequence; a record at
`MIN_PRIORITY` keeps that priority through the downgrade statements whatever its
count. -/
theorem priority_range_invariant (minP maxP : Int) (k : Kernel)
    (h : PrioritiesInRange minP maxP k.envs) :
    PrioritiesInRange minP maxP (yield_state minP maxP k).envs ∧
    (∀ j, PrioritiesInRange minP maxP (downgrade_step minP j k).envs) ∧
    PrioritiesInRange minP maxP (upgrade_step maxP k).envs ∧
    (∀ j, PrioritiesInRange minP maxP (upgrade_step maxP (downgrade_step minP j k)).envs) ∧
    ∀ e : Env, e.env_priority = minP → (count_execution minP e).env_priority = minP := by
  refine ⟨?_, fun j => downgrade_step_range minP maxP j k h, upgrade_step_range minP maxP k h,
    fun j => upgrade_step_range minP maxP _ (downgrade_step_range minP maxP j k h), ?_⟩
  · unfold yield_state
    rw [(sched_yield_priorities_frame minP maxP k).1]
    exact h
  · intro e he
    unfold count_execution
    simp only
    split
    · rename_i hc
      have := hc.2
      omega
    · exact he

/-- Witness for C7: the five-slot scenario with priorities within `[0, 5]`. -/
theorem priority_range_invariant_witness :
    PrioritiesInRange 0 5 scenario5.envs ∧
    PrioritiesInRange 0 5 (yield_state 0 5 scenario5).envs ∧
    (∀ j, PrioritiesInRange 0 5 (downgrade_step 0 j scenario5).envs) ∧
    PrioritiesInRange 0 5 (upgrade_step 5 scenario5).envs ∧
    (∀ j, PrioritiesInRange 0 5 (upgrade_step 5 (downgrade_step 0 j scenario5)).envs) ∧
    ∀ e : Env, e.env_priority = 0 → (count_execution 0 e).env_priority = 0 :=
  ⟨by unfold PrioritiesInRange; decide,
    priority_range_invariant 0 5 scenario5 (by unfold PrioritiesInRange; decide)⟩

/-- C8: a single RUNNABLE record at `MIN_PRIORITY` with count 9 is not selected
by the loop (the comparison with the initial `current_priority` is strict); with
no current environment the call ends in `sched_halt`, the record is not
dispatched and its count stays 9. -/
theorem lowest_band_never_selected (minP maxP : Int) :
    priority_scan minP (single minP 9) = none ∧
    (sched_yield_priorities minP maxP (single minP 9)).outcome = some Outcome.halted ∧
    (yield_state minP maxP (single minP 9)).envs = [⟨ENV_RUNNABLE, minP, 9⟩] := by
  have hscan : priority_scan minP (single minP 9) = none := by
    simp [priority_scan, prio_for, single, mkKernel, current_index, NENV, envAt]
  refine ⟨hscan, ?_, ?_⟩
  · rw [sched_yield_priorities_eq, hscan]
    simp [curenv_running, sched_halt, halt_for, single, mkKernel, NENV, envAt, Ctl.outcome]
  · rw [yield_state, (sched_yield_priorities_frame minP maxP _).1]
    rfl

/-! ## Nothing runnable -/

/-- C9: under the round-robin policy, with no RUNNABLE record in the table,
`sched_yield` dispatches the current environment when there is one and its
status is RUNNING, and otherwise is exactly `sched_halt`, which dispatches
nothing. -/
theorem round_robin_nothing_runnable (k : Kernel)
    (hno : ∀ i, i < NENV k → (envAt k.envs i).env_status ≠ ENV_RUNNABLE) :
    (∀ c, k.curenv = some c → (envAt k.envs c).env_status = ENV_RUNNING →
      sched_yield_round_robin k = Ctl.noreturn (Outcome.dispatched c) k) ∧
    ((∀ c, k.curenv = some c → (envAt k.envs c).env_status ≠ ENV_RUNNING) →
      sched_yield_round_robin k = sched_halt k) ∧
    (∀ j, (sched_halt k).outcome ≠ some (Outcome.dispatched j)) ∧
    ∀ j, (sched_yield_round_robin k).outcome = some (Outcome.dispatched j) ↔
      (k.curenv = some j ∧ (envAt k.envs j).env_status = ENV_RUNNING) := by
  have hloop : rr_for (current_index k) (NENV k) 0 k = Ctl.returned k := by
    rcases rr_for_cases (current_index k) k (NENV k) 0 with hl | ⟨i, _, hr⟩
    · exact hl
    · by_cases hi : i < NENV k
      · exact absurd hr (hno i hi)
      · have : envAt k.envs i = Env.free := by
          unfold envAt
          exact List.getD_eq_default _ _ (by unfold NENV at hi; omega)
        rw [this] at hr
        exact absurd hr (by decide)
  have hyes : ∀ c, k.curenv = some c → (envAt k.envs c).env_status = ENV_RUNNING →
      sched_yield_round_robin k = Ctl.noreturn (Outcome.dispatched c) k := by
    intro c hc hr
    simp only [sched_yield_round_robin, hloop, Ctl.andThen, curenv_running_of k c hc hr, env_run]
  have hnot : (∀ c, k.curenv = some c → (envAt k.envs c).env_status ≠ ENV_RUNNING) →
      sched_yield_round_robin k = sched_halt k := by
    intro h
    simp only [sched_yield_round_robin, hloop, Ctl.andThen, curenv_running_none k h]
  refine ⟨hyes, hnot, sched_halt_not_dispatched k, ?_⟩
  intro j
  constructor
  · intro hj
    by_contra hcon
    have hall : ∀ c, k.curenv = some c → (envAt k.envs c).env_status ≠ ENV_RUNNING := by
      intro c hc hr
      have he := hyes c hc hr
      rw [he] at hj
      simp only [Ctl.outcome, Option.some.injEq, Outcome.dispatched.injEq] at hj
      subst hj
      exact hcon ⟨hc, hr⟩
    rw [hnot hall] at hj
    exact sched_halt_not_dispatched k j hj
  · rintro ⟨hc, hr⟩
    rw [hyes j hc hr]
    rfl

/-- Witness for C9: `idle2` has no RUNNABLE record and its current environment,
slot 0, is RUNNING; it is dispatched again. -/
theorem round_robin_nothing_runnable_witness :
    (∀ i, i < NENV idle2 → (envAt idle2.envs i).env_status ≠ ENV_RUNNABLE) ∧
    sched_yield_round_robin idle2 = Ctl.noreturn (Outcome.dispatched 0) idle2 ∧
    (sched_yield_round_robin (mkKernel idle2.envs none)).outcome = some Outcome.halted :=
  ⟨by decide,
    (round_robin_nothing_runnable idle2 (by decide)).1 0 (by decide) (by decide),
    by decide⟩

/-- C10: under the priority policy, with no RUNNABLE record in the table and the
current environment still RUNNING, `sched_yield` dispatches that environment and
leaves the whole state, its priority and execution count included, unchanged. -/
theorem priorities_nothing_runnable (minP maxP : Int) (k : Kernel) (c : Nat)
    (hno : ∀ i, i < NENV k → (envAt k.envs i).env_status ≠ ENV_RUNNABLE)
    (hc : k.curenv = some c) (hr : (envAt k.envs c).env_status = ENV_RUNNING) :
    sched_yield_priorities minP maxP k = Ctl.noreturn (Outcome.dispatched c) k ∧
    (envAt (yield_state minP maxP k).envs c).env_priority = (envAt k.envs c).env_priority ∧
    (envAt (yield_state minP maxP k).envs c).q_execution_count =
      (envAt k.envs c).q_execution_count := by
  have hcall : sched_yield_priorities minP maxP k = Ctl.noreturn (Outcome.dispatched c) k := by
    rw [sched_yield_priorities_eq, priority_scan_no_runnable minP k hno,
      curenv_running_of k c hc hr]
  refine ⟨hcall, ?_, ?_⟩ <;> rw [yield_state, hcall] <;> rfl

/-- Witness for C10: `idle2`, whose current environment has priority 2 and
count 7. -/
theorem priorities_nothing_runnable_witness :
    (∀ i, i < NENV idle2 → (envAt idle2.envs i).env_status ≠ ENV_RUNNABLE) ∧
    idle2.curenv = some 0 ∧ (envAt idle2.envs 0).env_status = ENV_RUNNING ∧
    sched_yield_priorities 0 5 idle2 = Ctl.noreturn (Outcome.dispatched 0) idle2 ∧
    (envAt (yield_state 0 5 idle2).envs 0).env_priority = 2 ∧
    (envAt (yield_state 0 5 idle2).envs 0).q_execution_count = 7 :=
  ⟨by decide, by decide, by decide,
    priorities_nothing_runnable 0 5 idle2 0 (by decide) (by decide) (by decide)⟩

/-! ## The idle manager `sched_halt` -/

theorem halt_for_spec (envs : List Env) : ∀ (n i : Nat),
    (halt_for envs n i = i + n ∧ ∀ u, i ≤ u → u < i + n → ¬ Live (envAt envs u)) ∨
    (halt_for envs n i < i + n ∧ i ≤ halt_for envs n i ∧
      Live (envAt envs (halt_for envs n i))) := by
  intro n
  induction n with
  | zero =>
    intro i
    left
    exact ⟨rfl, by intro u h1 h2; omega⟩
  | succ n ih =>
    intro i
    by_cases hl : Live (envAt envs i)
    · right
      have : halt_for envs (n + 1) i = i := by
        unfold Live at hl
        simp only [halt_for, if_pos hl]
      rw [this]
      exact ⟨by omega, le_refl i, hl⟩
    · have : halt_for envs (n + 1) i = halt_for envs n (i + 1) := by
        unfold Live at hl
        simp only [halt_for, if_neg hl]
      rw [this]
      rcases ih (i + 1) with ⟨he, hall⟩ | ⟨hlt, hge, hlive⟩
      · left
        refine ⟨by omega, ?_⟩
        intro u h1 h2
        by_cases hui : u = i
        · subst hui; exact hl
        · exact hall u (by omega) (by omega)
      · right
        exact ⟨by omega, by omega, hlive⟩

/-- The liveness loop runs to the table end exactly when no record is live. -/
theorem halt_for_full_iff (k : Kernel) :
    halt_for k.envs (NENV k) 0 = NENV k ↔ NoLiveEnv k.envs := by
  have hspec := halt_for_spec k.envs (NENV k) 0
  unfold NENV at hspec ⊢
  rcases hspec with ⟨he, hall⟩ | ⟨hlt, _, hlive⟩
  · constructor
    · intro _ i hi
      exact hall i (Nat.zero_le i) (by omega)
    · intro _
      omega
  · constructor
    · intro he
      omega
    · intro hno
      exact absurd hlive (hno _ (by omega))

theorem noLiveEnv_iff_not_exists (k : Kernel) :
    NoLiveEnv k.envs ↔ ¬ ∃ i, i < NENV k ∧ Live (envAt k.envs i) := by
  unfold NoLiveEnv NENV
  constructor
  · rintro h ⟨i, hi, hl⟩
    exact h i hi hl
  · intro h i hi hl
    exact h ⟨i, hi, hl⟩

/-- The diagnostic path of `sched_halt`. -/
theorem sched_halt_monitor (k : Kernel) (h : NoLiveEnv k.envs) :
    sched_halt k = Ctl.noreturn Outcome.monitor
      { k with events := k.events ++ [Event.cprintf_no_runnable, Event.monitor_loop] } := by
  unfold sched_halt
  simp only [(halt_for_full_iff k).2 h, if_true]

/-- The park path of `sched_halt`. -/
theorem sched_halt_park (k : Kernel) (h : ¬ NoLiveEnv k.envs) :
    sched_halt k = Ctl.noreturn Outcome.halted
      { k with curenv := none, cpu_status := CpuStatus.CPU_HALTED, kernel_locked := false,
               events := k.events ++ [Event.curenv_cleared, Event.lcr3_kern_pgdir,
                 Event.xchg_cpu_halted, Event.unlock_kernel, Event.sti_hlt_loop] } := by
  unfold sched_halt
  have hne : ¬ halt_for k.envs (NENV k) 0 = NENV k := fun he => h ((halt_for_full_iff k).1 he)
  simp only [hne, if_false, List.append_assoc, List.singleton_append, List.cons_append,
    List.nil_append]

/-- C11: `sched_halt` takes the diagnostic (monitor) path exactly when no record
is RUNNABLE, RUNNING or DYING, and the park path exactly when some record is; on
the diagnostic path the state is the initial one with only the console message
and the monitor loop added to the effects: the current environment, the CPU
status and the kernel lock are untouched. -/
theorem sched_halt_liveness_check (k : Kernel) :
    ((sched_halt k).outcome = some Outcome.monitor ↔ NoLiveEnv k.envs) ∧
    ((sched_halt k).outcome = some Outcome.halted ↔
      ∃ i, i < NENV k ∧ Live (envAt k.envs i)) ∧
    ((sched_halt k).outcome = some Outcome.monitor ↔
      sched_halt k = Ctl.noreturn Outcome.monitor
        { envs := k.envs, curenv := k.curenv, executions := k.executions,
          cpu_status := k.cpu_status, kernel_locked := k.kernel_locked,
          events := k.events ++ [Event.cprintf_no_runnable, Event.monitor_loop] }) := by
  by_cases h : NoLiveEnv k.envs
  · have hm := sched_halt_monitor k h
    refine ⟨?_, ?_, ?_⟩
    · exact ⟨fun _ => h, fun _ => by rw [hm]; rfl⟩
    · constructor
      · intro ho
        rw [hm] at ho
        simp [Ctl.outcome] at ho
      · intro hex
        exact absurd h ((noLiveEnv_iff_not_exists k).not_left.2 hex)
    · exact ⟨fun _ => hm, fun he => by rw [he]; rfl⟩
  · have hp := sched_halt_park k h
    refine ⟨?_, ?_, ?_⟩
    · constructor
      · intro ho
        rw [hp] at ho
        simp [Ctl.outcome] at ho
      · intro hno
        exact absurd hno h
    · constructor
      · intro _
        by_contra hne
        exact h ((noLiveEnv_iff_not_exists k).2 hne)
      · intro _
        rw [hp]
        rfl
    · constructor
      · intro ho
        rw [hp] at ho
        simp [Ctl.outcome] at ho
      · intro he
        rw [he]
        rfl

/-- C12: when some record is RUNNABLE, RUNNING or DYING, `sched_halt` ends parked
and the effects of the call are, in this order: current environment cleared,
switch to the kernel page directory, CPU status set to HALTED, kernel lock
released, interrupts enabled with the halt loop. HALTED comes before the lock
release, which comes before the interrupts are enabled, and the lock is released
exactly once. -/
theorem sched_halt_park_order (k : Kernel)
    (h : ∃ i, i < NENV k ∧ Live (envAt k.envs i)) :
    ∃ k1, sched_halt k = Ctl.noreturn Outcome.halted k1 ∧
      events_since k k1.events =
        [Event.curenv_cleared, Event.lcr3_kern_pgdir, Event.xchg_cpu_halted,
          Event.unlock_kernel, Event.sti_hlt_loop] ∧
      k1.events = k.events ++ events_since k k1.events ∧
      (events_since k k1.events).indexOf Event.xchg_cpu_halted <
        (events_since k k1.events).indexOf Event.unlock_kernel ∧
      (events_since k k1.events).indexOf Event.unlock_kernel <
        (events_since k k1.events).indexOf Event.sti_hlt_loop ∧
      (events_since k k1.events).count Event.unlock_kernel = 1 ∧
      (events_since k k1.events).count Event.xchg_cpu_halted = 1 ∧
      k1.curenv = none ∧ k1.cpu_status = CpuStatus.CPU_HALTED ∧
      k1.kernel_locked = false ∧ k1.envs = k.envs := by
  have hno : ¬ NoLiveEnv k.envs := (noLiveEnv_iff_not_exists k).not_left.2 h
  refine ⟨_, sched_halt_park k hno, ?_⟩
  have hev : events_since k (k.events ++ [Event.curenv_cleared, Event.lcr3_kern_pgdir,
      Event.xchg_cpu_halted, Event.unlock_kernel, Event.sti_hlt_loop]) =
      [Event.curenv_cleared, Event.lcr3_kern_pgdir, Event.xchg_cpu_halted,
        Event.unlock_kernel, Event.sti_hlt_loop] := by
    unfold events_since
    exact List.drop_left _ _
  simp only [hev]
  decide

/-- Witness for C12: the five-slot scenario, whose slot 1 is RUNNABLE. -/
theorem sched_halt_park_order_witness :
    (∃ i, i < NENV scenario5 ∧ Live (envAt scenario5.envs i)) ∧
    ∃ k1, sched_halt scenario5 = Ctl.noreturn Outcome.halted k1 ∧
      events_since scenario5 k1.events =
        [Event.curenv_cleared, Event.lcr3_kern_pgdir, Event.xchg_cpu_halted,
          Event.unlock_kernel, Event.sti_hlt_loop] ∧
      k1.events = scenario5.events ++ events_since scenario5 k1.events ∧
      (events_since scenario5 k1.events).indexOf Event.xchg_cpu_halted <
        (events_since scenario5 k1.events).indexOf Event.unlock_kernel ∧
      (events_since scenario5 k1.events).indexOf Event.unlock_kernel <
        (events_since scenario5 k1.events).indexOf Event.sti_hlt_loop ∧
      (events_since scenario5 k1.events).count Event.unlock_kernel = 1 ∧
      (events_since scenario5 k1.events).count Event.xchg_cpu_halted = 1 ∧
      k1.curenv = none ∧ k1.cpu_status = CpuStatus.CPU_HALTED ∧
      k1.kernel_locked = false ∧ k1.envs = scenario5.envs :=
  ⟨⟨1, by decide, by unfold Live; decide⟩,
    sched_halt_park_order scenario5 ⟨1, by decide, by unfold Live; decide⟩⟩

/-! ## Priority policy: the exact result of the selection loop -/

/-- C13: the selection loop starts at `current_index % NENV` (0 without a
current environment, `(ENVX(curenv) + 1) mod NENV` otherwise). It selects no
record exactly when no record at or after the start is RUNNABLE with priority
above `MIN_PRIORITY`; it selects `j` exactly when `j` is such a record, has the
greatest priority among them, and has the lowest index among those of that
priority. So no record below the start and no record at `MIN_PRIORITY` is ever
selected. -/
theorem priority_scan_exact (minP : Int) (k : Kernel) :
    (current_index k % NENV k =
      match k.curenv with
      | none => 0
      | some c => (c + 1) % NENV k) ∧
    (priority_scan minP k = none ↔ ∀ i, ¬ Candidate minP k i) ∧
    ∀ j, priority_scan minP k = some j ↔
      (Candidate minP k j ∧
        (∀ u, Candidate minP k u →
          (envAt k.envs u).env_priority ≤ (envAt k.envs j).env_priority) ∧
        ∀ u, Candidate minP k u →
          (envAt k.envs u).env_priority = (envAt k.envs j).env_priority → j ≤ u) := by
  have hsome : ∀ j, priority_scan minP k = some j →
      (Candidate minP k j ∧
        (∀ u, Candidate minP k u →
          (envAt k.envs u).env_priority ≤ (envAt k.envs j).env_priority) ∧
        ∀ u, Candidate minP k u →
          (envAt k.envs u).env_priority = (envAt k.envs j).env_priority → j ≤ u) := by
    intro j hj
    obtain ⟨h1, h2, h3, h4, hall, hbefore⟩ := priority_scan_some minP k j hj
    refine ⟨⟨h1, h2, h3, h4⟩, ?_, ?_⟩
    · rintro u ⟨hu1, hu2, hu3, _⟩
      exact hall u hu1 hu2 hu3
    · rintro u ⟨hu1, _, hu3, _⟩ heq
      by_contra hlt
      have := hbefore u hu1 (by omega) hu3
      omega
  have hnone : priority_scan minP k = none → ∀ i, ¬ Candidate minP k i := by
    rintro hn i ⟨hi1, hi2, hi3, hi4⟩
    have := priority_scan_none minP k hn i hi1 hi2 hi3
    omega
  refine ⟨?_, ⟨hnone, ?_⟩, ?_⟩
  · unfold current_index
    cases k.curenv with
    | none => exact Nat.zero_mod _
    | some c => rfl
  · intro hno
    cases hs : priority_scan minP k with
    | none => rfl
    | some j => exact absurd (hsome j hs).1 (hno j)
  · intro j
    refine ⟨hsome j, ?_⟩
    rintro ⟨hc, hmax, hlow⟩
    cases hs : priority_scan minP k with
    | none => exact absurd hc (hnone hs j)
    | some j1 =>
      obtain ⟨hc1, hmax1, hlow1⟩ := hsome j1 hs
      have e1 := hmax j1 hc1
      have e2 := hmax1 j hc
      have l1 := hlow j1 hc1 (by omega)
      have l2 := hlow1 j hc (by omega)
      congr 1
      omega

/-! ## Priority policy: the bookkeeping is never reached -/

/-- C14: every path of `sched_yield` under the priority policy ends in
`env_run(env)`, `env_run(curenv)` or `sched_halt()`, none of which returns, so
the call never comes back; it leaves the counter `executions` and every record
of the table (priority and execution count included) as they were. -/
theorem priorities_bookkeeping_unreachable (minP maxP : Int) (k : Kernel) :
    (sched_yield_priorities minP maxP k =
      match priority_scan minP k with
      | some env => env_run env k
      | none =>
        match curenv_running k with
        | some c => env_run c k
        | none => sched_halt k) ∧
    (∃ o k1, sched_yield_priorities minP maxP k = Ctl.noreturn o k1) ∧
    (yield_state minP maxP k).executions = k.executions ∧
    (yield_state minP maxP k).envs = k.envs := by
  have heq := sched_yield_priorities_eq minP maxP k
  obtain ⟨henvs, hexec⟩ := sched_yield_priorities_frame minP maxP k
  refine ⟨?_, ?_, hexec, henvs⟩
  · rw [heq]
    cases priority_scan minP k with
    | some env => rfl
    | none =>
      cases curenv_running k with
      | some c => rfl
      | none => rfl
  · rw [heq]
    cases priority_scan minP k with
    | some env => exact ⟨_, _, rfl⟩
    | none =>
      cases curenv_running k with
      | some c => exact ⟨_, _, rfl⟩
      | none =>
        obtain ⟨o, k1, he, _⟩ := sched_halt_noreturn k
        exact ⟨o, k1, he⟩

/-! ## Priority policy: the execution counts -/

theorem count_execution_counts (minP : Int) (e : Env)
    (h : minP < e.env_priority → 0 ≤ e.q_execution_count ∧ e.q_execution_count < MAX_EXECS) :
    minP < (count_execution minP e).env_priority →
      0 ≤ (count_execution minP e).q_execution_count ∧
      (count_execution minP e).q_execution_count < MAX_EXECS := by
  unfold count_execution
  simp only
  split
  · intro _
    simp only [MAX_EXECS]
    omega
  · rename_i hc
    intro hp
    simp only at hp
    have hcount := h hp
    simp only [MAX_EXECS] at hcount hc ⊢
    have hw : wrap_int (e.q_execution_count + 1) = e.q_execution_count + 1 :=
      wrap_int_eq _ (by omega) (by omega)
    rw [hw] at hc ⊢
    have hnot : ¬ e.q_execution_count + 1 ≥ 10 := fun hge => hc ⟨hge, hp⟩
    omega

theorem downgrade_step_counts (minP : Int) (j : Nat) (k : Kernel)
    (h : CountsBelowMax minP k.envs) :
    CountsBelowMax minP (downgrade_step minP j k).envs := by
  unfold downgrade_step
  simp only
  by_cases hj : j < k.envs.length
  · intro e he
    rcases List.mem_or_eq_of_mem_set he with he | he
    · exact h e he
    · subst he
      exact count_execution_counts minP _ (h _ (envAt_mem k.envs j hj))
  · rw [List.set_eq_of_length_le (by omega)]
    exact h

theorem upgrade_for_counts (minP maxP : Int) : ∀ (n i : Nat) (envs : List Env),
    CountsBelowMax minP envs → CountsBelowMax minP (upgrade_for maxP n i envs) := by
  intro n
  induction n with
  | zero => intro i envs h; exact h
  | succ n ih =>
    intro i envs h
    simp only [upgrade_for]
    apply ih
    intro e he
    rcases List.mem_or_eq_of_mem_set he with he | he
    · exact h e he
    · subst he
      intro _
      simp only [MAX_EXECS]
      omega

theorem upgrade_step_counts (minP maxP : Int) (k : Kernel)
    (h : CountsBelowMax minP k.envs) :
    CountsBelowMax minP (upgrade_step maxP k).envs := by
  unfold upgrade_step
  simp only
  split
  · exact upgrade_for_counts minP maxP _ _ _ h
  · exact h

/-- C15: taking the statements after the dispatch as steps on the table (count
and downgrade test on record `j`, then the global upgrade), the predicate
"every record above `MIN_PRIORITY` has a count in `[0, MAX_EXECS)`" is preserved
by each step and by both in sequence. With priorities within
`[MIN_PRIORITY, MAX_PRIORITY]`, a record whose count is `MAX_EXECS` or more after
any of these steps is at `MIN_PRIORITY`; at `MIN_PRIORITY` the count statements
are exactly the 32-bit increment, with no downgrade and no reset. -/
theorem execution_count_invariant (minP maxP : Int) (k : Kernel) (j : Nat)
    (h : CountsBelowMax minP k.envs) (hr : PrioritiesInRange minP maxP k.envs) :
    CountsBelowMax minP (downgrade_step minP j k).envs ∧
    CountsBelowMax minP (upgrade_step maxP k).envs ∧
    CountsBelowMax minP (upgrade_step maxP (downgrade_step minP j k)).envs ∧
    (∀ e, e ∈ (downgrade_step minP j k).envs →
      MAX_EXECS ≤ e.q_execution_count → e.env_priority = minP) ∧
    (∀ e, e ∈ (upgrade_step maxP k).envs →
      MAX_EXECS ≤ e.q_execution_count → e.env_priority = minP) ∧
    (∀ e, e ∈ (upgrade_step maxP (downgrade_step minP j k)).envs →
      MAX_EXECS ≤ e.q_execution_count → e.env_priority = minP) ∧
    ∀ e : Env, e.env_priority = minP →
      count_execution minP e =
        { e with q_execution_count := wrap_int (e.q_execution_count + 1) } := by
  have hd := downgrade_step_counts minP j k h
  have hu := upgrade_step_counts minP maxP k h
  have hboth := upgrade_step_counts minP maxP _ hd
  have hdr := downgrade_step_range minP maxP j k hr
  have hur := upgrade_step_range minP maxP k hr
  have hbr := upgrade_step_range minP maxP _ hdr
  have only_min : ∀ envs : List Env, CountsBelowMax minP envs →
      PrioritiesInRange minP maxP envs →
      ∀ e, e ∈ envs → MAX_EXECS ≤ e.q_execution_count → e.env_priority = minP := by
    intro envs hc hrange e he hge
    have h1 := hrange e he
    by_contra hne
    have h2 := hc e he (by omega)
    omega
  refine ⟨hd, hu, hboth, only_min _ hd hdr, only_min _ hu hur, only_min _ hboth hbr, ?_⟩
  intro e he
  unfold count_execution
  simp only
  split
  · rename_i hc
    have := hc.2
    omega
  · rfl

/-- Witness for C15: in `busy3`, with priorities within `[0, 5]`, the count
statements bring slot 0 to the threshold (count 10 at priority 2), which
downgrades it to priority 1 with count 0; the 50th decision then upgrades every
record; slot 1, at `MIN_PRIORITY` with count 10, goes on to count 11. -/
theorem execution_count_invariant_witness :
    CountsBelowMax 0 busy3.envs ∧ PrioritiesInRange 0 5 busy3.envs ∧
    (downgrade_step 0 0 busy3).envs =
      [⟨ENV_RUNNABLE, 1, 0⟩, ⟨ENV_RUNNABLE, 0, 10⟩, ⟨ENV_RUNNING, 1, 3⟩] ∧
    (upgrade_step 5 (downgrade_step 0 0 busy3)).envs =
      [⟨ENV_RUNNABLE, 5, 0⟩, ⟨ENV_RUNNABLE, 5, 0⟩, ⟨ENV_RUNNING, 5, 0⟩] ∧
    (downgrade_step 0 1 busy3).envs =
      [⟨ENV_RUNNABLE, 2, 9⟩, ⟨ENV_RUNNABLE, 0, 11⟩, ⟨ENV_RUNNING, 1, 3⟩] ∧
    CountsBelowMax 0 (downgrade_step 0 0 busy3).envs ∧
    CountsBelowMax 0 (upgrade_step 5 busy3).envs ∧
    CountsBelowMax 0 (upgrade_step 5 (downgrade_step 0 0 busy3)).envs ∧
    (∀ e, e ∈ (downgrade_step 0 0 busy3).envs →
      MAX_EXECS ≤ e.q_execution_count → e.env_priority = 0) ∧
    (∀ e, e ∈ (upgrade_step 5 busy3).envs →
      MAX_EXECS ≤ e.q_execution_count → e.env_priority = 0) ∧
    (∀ e, e ∈ (upgrade_step 5 (downgrade_step 0 0 busy3)).envs →
      MAX_EXECS ≤ e.q_execution_count → e.env_priority = 0) ∧
    ∀ e : Env, e.env_priority = 0 →
      count_execution 0 e =
        { e with q_execution_count := wrap_int (e.q_execution_count + 1) } :=
  ⟨by unfold CountsBelowMax; decide, by unfold PrioritiesInRange; decide,
    by decide, by decide, by decide,
    execution_count_invariant 0 5 busy3 0 (by unfold CountsBelowMax; decide)
      (by unfold PrioritiesInRange; decide)⟩

/-! ## Selection and the status field -/

theorem map_status_set (envs : List Env) : ∀ (i : Nat) (e : Env),
    e.env_status = (envAt envs i).env_status →
    (envs.set i e).map Env.env_status = envs.map Env.env_status := by
  induction envs with
  | nil => intro i e _; rfl
  | cons a l ih =>
    intro i e h
    cases i with
    | zero =>
      simp only [envAt, List.getD_cons_zero] at h
      simp only [List.set_cons_zero, List.map_cons, h]
    | succ i =>
      simp only [envAt, List.getD_cons_succ] at h
      simp only [List.set_cons_succ, List.map_cons]
      rw [ih i e h]

theorem count_execution_status (minP : Int) (e : Env) :
    (count_execution minP e).env_status = e.env_status := by
  unfold count_execution
  simp only
  split <;> rfl

theorem downgrade_step_status (minP : Int) (j : Nat) (k : Kernel) :
    (downgrade_step minP j k).envs.map Env.env_status = k.envs.map Env.env_status := by
  unfold downgrade_step
  exact map_status_set k.envs j _ (count_execution_status minP _)

theorem upgrade_for_status (maxP : Int) : ∀ (n i : Nat) (envs : List Env),
    (upgrade_for maxP n i envs).map Env.env_status = envs.map Env.env_status := by
  intro n
  induction n with
  | zero => intro i envs; rfl
  | succ n ih =>
    intro i envs
    simp only [upgrade_for]
    rw [ih]
    exact map_status_set envs i _ rfl

theorem upgrade_step_status (maxP : Int) (k : Kernel) :
    (upgrade_step maxP k).envs.map Env.env_status = k.envs.map Env.env_status := by
  unfold upgrade_step
  simp only
  split
  · exact upgrade_for_status maxP _ _ _
  · rfl

theorem sched_yield_round_robin_envs (k : Kernel) :
    (sched_yield_round_robin k).state.envs = k.envs := by
  unfold sched_yield_round_robin
  rcases rr_for_cases (current_index k) k (NENV k) 0 with hl | ⟨i, hl, _⟩
  · rw [hl]
    simp only [Ctl.andThen]
    cases curenv_running k with
    | some c => rfl
    | none =>
      obtain ⟨o, k1, he, _, h1, _⟩ := sched_halt_noreturn k
      simp only [Ctl.andThen, he, Ctl.state]
      exact h1
  · rw [hl]
    rfl

/-- C16: a call of `sched_yield` under the round-robin policy leaves the whole
table (status, priority and execution count of every record) unchanged; under
the priority policy the call leaves every status unchanged, and so would the
count/downgrade statements and the global upgrade, which write only
`q_execution_count` and `env_priority`. -/
theorem selection_keeps_statuses (minP maxP : Int) (k : Kernel) :
    (sched_yield_round_robin k).state.envs = k.envs ∧
    (yield_state minP maxP k).envs.map Env.env_status = k.envs.map Env.env_status ∧
    (∀ j, (downgrade_step minP j k).envs.map Env.env_status =
      k.envs.map Env.env_status) ∧
    (upgrade_step maxP k).envs.map Env.env_status = k.envs.map Env.env_status ∧
    ∀ j, (upgrade_step maxP (downgrade_step minP j k)).envs.map Env.env_status =
      k.envs.map Env.env_status := by
  refine ⟨sched_yield_round_robin_envs k, ?_, fun j => downgrade_step_status minP j k,
    upgrade_step_status maxP k, ?_⟩
  · unfold yield_state
    rw [(sched_yield_priorities_frame minP maxP k).1]
  · intro j
    rw [upgrade_step_status, downgrade_step_status]

end Sched
